import Mathlib

/-!
Shallow embedding of `src/examples/verbose_traceroute.py` (icmplib).

The function `verbose_traceroute` drives a traceroute: a `while` loop over
`ttl = 1 .. max_hops` stopping early when the destination is reached, and an
inner `for sequence in range(count)` loop of probe attempts per ttl.  Each
attempt sends an ICMP request and classifies what happens:

* the reply passes `raise_for_status()` — an echo reply from the destination:
  the hop line is completed with the round-trip time, `host_reached` is set
  and the attempt loop breaks (source lines 79-94);
* `raise_for_status()` raises `TimeExceeded` — an intermediate gateway
  answered: the hop line is completed with the round-trip time, the program
  sleeps `interval` seconds and the attempt loop breaks (lines 96-107);
* `sock.receive` raises `TimeoutExceeded`: if this was the last attempt
  (`sequence >= count - 1`) the line `ttl  * * *` is printed, otherwise the
  loop just moves on to the next attempt (lines 109-113);
* any other `ICMPLibError` is swallowed (`pass`) and the loop moves on to the
  next attempt (lines 115-117).  Note that when such an error is raised by
  `raise_for_status()` the partial hop line (ttl, source address, resolved
  name) has already been printed at lines 81-82.

The embedding turns the printed output into a list of `Event`s, records every
constructed/sent probe as a `(ttl, sequence)` pair, and mirrors the
exception-based classification with the `Outcome` sum type.  The network, the
clock and the name resolver are inputs (`Env`): `Env.outcome t i` is what the
channel does for the probe with ttl `t` and sequence `i`, `Env.sendTime t i`
is `request.time` for that probe, and `Env.fqdn` is `socket.getfqdn`.
Timestamps are modelled as integers.
-/

namespace Traceroute

/-- Outcome of one probe attempt, mirroring the exception classification of
the source: `echoReply src rt` is a reply that passes `raise_for_status`
(destination reached, `rt` is `reply.time`); `timeExceeded src rt` is a reply
for which `raise_for_status` raises `TimeExceeded` (intermediate gateway);
`timeout` is `TimeoutExceeded` from `sock.receive`; `errorReply src` is a
received reply for which `raise_for_status` raises some other `ICMPLibError`
(e.g. destination unreachable); `sendError` is any other `ICMPLibError`
raised by `sock.send`/`sock.receive` before a reply is printed. -/
inductive Outcome where
  | echoReply (src : String) (rt : Int)
  | timeExceeded (src : String) (rt : Int)
  | timeout
  | errorReply (src : String)
  | sendError
deriving DecidableEq, Repr

/-- `breaks o` is true when the attempt `break`s out of the inner loop:
exactly the two response cases (echo reply and time exceeded). -/
def Outcome.breaks : Outcome → Bool
  | .echoReply _ _ => true
  | .timeExceeded _ _ => true
  | _ => false

/-- True exactly for an echo reply from the destination itself. -/
def Outcome.isEcho : Outcome → Bool
  | .echoReply _ _ => true
  | _ => false

/-- One unit of program output.  `hop ttl src name rtt reachedDest` is a
completed hop line (a HopResult carrying an address and a round-trip time);
`noResponse ttl` is the synthetic `ttl  * * *` line (HopResult with address
and rtt absent); `errLine ttl src name` is the partial line printed at source
lines 81-82 when `raise_for_status` subsequently raises a non-TimeExceeded
error — it is not a HopResult; `wait` marks the `sleep(interval)` call. -/
inductive Event where
  | hop (ttl : Nat) (src : String) (name : String) (rtt : Int) (reachedDest : Bool)
  | noResponse (ttl : Nat)
  | errLine (ttl : Nat) (src : String) (name : String)
  | wait
deriving DecidableEq, Repr

/-- The ttl of an event when the event is a HopResult (complete hop line or
synthetic no-response line), `none` otherwise. -/
def Event.hopTtl : Event → Option Nat
  | .hop t _ _ _ _ => some t
  | .noResponse t => some t
  | _ => none

/-- True for a hop line with `reached_destination = true`. -/
def Event.isReached : Event → Bool
  | .hop _ _ _ _ r => r
  | _ => false

/-- True for the partial line left by a failing `raise_for_status`. -/
def Event.isErrLine : Event → Bool
  | .errLine _ _ _ => true
  | _ => false

/-- The ttl values of the HopResults of an event list, in emission order. -/
def hopTtls (es : List Event) : List Nat := es.filterMap Event.hopTtl

/-- The round-trip times carried by complete hop lines, in emission order. -/
def hopRtts (es : List Event) : List Int :=
  es.filterMap fun e => match e with
    | .hop _ _ _ r _ => some r
    | _ => none

/-- Accumulated result of (part of) a run: emitted output events, probes
constructed and sent as `(ttl, sequence)` pairs, and the `host_reached`
flag. -/
structure Round where
  events : List Event
  probes : List (Nat × Nat)
  reached : Bool
deriving DecidableEq, Repr

/-- The external world as the engine sees it: what the channel does for each
probe (indexed by ttl and sequence), the reverse-name lookup
(`socket.getfqdn`), and the send timestamp `request.time` of each probe. -/
structure Env where
  outcome : Nat → Nat → Outcome
  fqdn : String → String
  sendTime : Nat → Nat → Int

/-- The inner `for sequence in range(count)` loop of the source, starting at
sequence `i` with `r` attempts remaining (invariant of interest:
`i + r = count`).  Each iteration constructs and sends one probe `(ttl, i)`
and classifies the outcome exactly as the source's `try/except` does; the
timeout message test `count ≤ i + 1` is the source's integer test
`sequence >= count - 1`. -/
def attemptLoop (env : Env) (ttl count : Nat) : Nat → Nat → Round
  | _, 0 => ⟨[], [], false⟩
  | i, r + 1 =>
    match env.outcome ttl i with
    | .echoReply src rt =>
        ⟨[.hop ttl src (env.fqdn src) ((rt - env.sendTime ttl i) * 1000) true],
         [(ttl, i)], true⟩
    | .timeExceeded src rt =>
        ⟨[.hop ttl src (env.fqdn src) ((rt - env.sendTime ttl i) * 1000) false, .wait],
         [(ttl, i)], false⟩
    | .timeout =>
        ⟨(if count ≤ i + 1 then [.noResponse ttl] else [])
           ++ (attemptLoop env ttl count (i + 1) r).events,
         (ttl, i) :: (attemptLoop env ttl count (i + 1) r).probes,
         (attemptLoop env ttl count (i + 1) r).reached⟩
    | .errorReply src =>
        ⟨.errLine ttl src (env.fqdn src) :: (attemptLoop env ttl count (i + 1) r).events,
         (ttl, i) :: (attemptLoop env ttl count (i + 1) r).probes,
         (attemptLoop env ttl count (i + 1) r).reached⟩
    | .sendError =>
        ⟨(attemptLoop env ttl count (i + 1) r).events,
         (ttl, i) :: (attemptLoop env ttl count (i + 1) r).probes,
         (attemptLoop env ttl count (i + 1) r).reached⟩

/-- One full round of attempts for a ttl: the inner loop run from sequence 0
with `count` attempts. -/
def hopRound (env : Env) (count ttl : Nat) : Round :=
  attemptLoop env ttl count 0 count

/-- The outer `while not host_reached and ttl <= max_hops` loop, with `fuel`
the number of ttl values still allowed (`fuel = max_hops + 1 - ttl`). -/
def ttlLoop (env : Env) (count : Nat) : Nat → Nat → Round
  | _, 0 => ⟨[], [], false⟩
  | ttl, fuel + 1 =>
    if (hopRound env count ttl).reached then hopRound env count ttl
    else
      ⟨(hopRound env count ttl).events ++ (ttlLoop env count (ttl + 1) fuel).events,
       (hopRound env count ttl).probes ++ (ttlLoop env count (ttl + 1) fuel).probes,
       (ttlLoop env count (ttl + 1) fuel).reached⟩

/-- A whole run: the outer loop entered with `ttl = 1`. -/
def run (env : Env) (count maxHops : Nat) : Round :=
  ttlLoop env count 1 maxHops

/-- Lifecycle events of the raw ICMP socket (the spec's Probe Channel). -/
inductive ChanEvent where
  | acquire
  | release
deriving DecidableEq, Repr

/-- The whole source function: an `ICMPv4Socket`/`ICMPv6Socket` is constructed
before the ttl loop (source lines 53-56) and the function contains no
`close()`, no `with` block and no `try/finally` — the socket is never
released on any path through lines 38-121, so the channel trace of every run
is just the acquisition. -/
def verbose_traceroute (env : Env) (count maxHops : Nat) : List ChanEvent × Round :=
  ([ChanEvent.acquire], run env count maxHops)

/-- Decides where the `sleep(interval)` calls sit in an output trace: the
predicate holds when every `wait` immediately follows a completed
intermediate-hop line (`hop _ _ _ _ false`) and every such hop line is
immediately followed by a `wait` — i.e. the interval throttle happens exactly
once per gateway (Time Exceeded) reply, and nowhere else. -/
def waitsAfterHopOnly : List Event → Bool
  | [] => true
  | .hop _ _ _ _ false :: .wait :: rest => waitsAfterHopOnly rest
  | .hop _ _ _ _ false :: _ => false
  | .wait :: _ => false
  | _ :: rest => waitsAfterHopOnly rest

/-- Modelled from the spec: the reverse name lookup is the external Resolver
collaborator (`socket.getfqdn` in the source, whose code is not part of this
repository).  `getfqdn` performs a best-effort reverse lookup and, per its
documented contract, returns its argument unchanged when the lookup fails or
yields nothing; it never raises. -/
def getfqdnModel (lookup : String → Option String) (name : String) : String :=
  (lookup name).getD name

/-- Modelled from the spec: the optional `HopResult.resolved_name` of the
spec's data model — the raw result of the Resolver's reverse lookup, absent
exactly when the lookup fails or yields nothing. -/
def resolvedNameSpec (lookup : String → Option String) (addr : String) : Option String :=
  lookup addr

/-- Environment where every probe times out. -/
def envTO : Env := ⟨fun _ _ => .timeout, fun s => s, fun _ _ => 0⟩

/-- Environment where every attempt fails with a non-timeout send error. -/
def envFail : Env := ⟨fun _ _ => .sendError, fun s => s, fun _ _ => 0⟩

/-- Environment where the destination answers every probe at once. -/
def envEcho : Env := ⟨fun _ _ => .echoReply "198.27.92.1" 7, fun s => s, fun _ _ => 2⟩

/-- Environment where a gateway answers every probe with Time Exceeded. -/
def envHop : Env := ⟨fun _ _ => .timeExceeded "192.168.0.254" 3, fun s => s, fun _ _ => 1⟩

/-- Environment with a gateway reply whose receive timestamp precedes the
probe's send timestamp (wall clock stepped backwards). -/
def envNeg : Env := ⟨fun _ _ => .timeExceeded "192.168.0.254" 0, fun s => s, fun _ _ => 1⟩

/-- Environment where the first attempt of every ttl gets an ICMP error reply
(`raise_for_status` raises a non-TimeExceeded `ICMPLibError`) and every later
attempt times out. -/
def envErr : Env :=
  ⟨fun _ i => if i = 0 then .errorReply "10.0.0.1" else .timeout, fun s => s, fun _ _ => 0⟩

example : (run envTO 1 2).events = [.noResponse 1, .noResponse 2] := by decide
example : (run envFail 1 1).events = [] := by decide
example : (run envEcho 1 3).events = [.hop 1 "198.27.92.1" "198.27.92.1" 5000 true] := by decide
example : (run envHop 2 2).events =
    [.hop 1 "192.168.0.254" "192.168.0.254" 2000 false, .wait,
     .hop 2 "192.168.0.254" "192.168.0.254" 2000 false, .wait] := by decide
example : (run envNeg 1 1).events =
    [.hop 1 "192.168.0.254" "192.168.0.254" (-1000) false, .wait] := by decide
example : (run envErr 2 1).events =
    [.errLine 1 "10.0.0.1" "10.0.0.1", .noResponse 1] := by decide
example : (run envErr 2 1).probes = [(1, 0), (1, 1)] := by decide
example : (run envEcho 3 5).probes = [(1, 0)] := by decide

/-! ### Structural lemmas about the inner attempt loop -/

theorem attemptLoop_probes_mem (env : Env) (ttl count : Nat) :
    ∀ r i, ∀ p ∈ (attemptLoop env ttl count i r).probes,
      p.1 = ttl ∧ i ≤ p.2 ∧ p.2 < i + r := by
  intro r
  induction r with
  | zero => intro i p hp; simp [attemptLoop] at hp
  | succ r ih =>
    intro i p hp
    cases h : env.outcome ttl i with
    | echoReply src rt =>
      simp [attemptLoop, h] at hp
      subst hp; exact ⟨rfl, Nat.le_refl _, by omega⟩
    | timeExceeded src rt =>
      simp [attemptLoop, h] at hp
      subst hp; exact ⟨rfl, Nat.le_refl _, by omega⟩
    | timeout =>
      simp only [attemptLoop, h] at hp
      rcases List.mem_cons.1 hp with hp | hp
      · subst hp; exact ⟨rfl, Nat.le_refl _, by omega⟩
      · obtain ⟨h1, h2, h3⟩ := ih (i + 1) p hp
        exact ⟨h1, by omega, by omega⟩
    | errorReply src =>
      simp only [attemptLoop, h] at hp
      rcases List.mem_cons.1 hp with hp | hp
      · subst hp; exact ⟨rfl, Nat.le_refl _, by omega⟩
      · obtain ⟨h1, h2, h3⟩ := ih (i + 1) p hp
        exact ⟨h1, by omega, by omega⟩
    | sendError =>
      simp only [attemptLoop, h] at hp
      rcases List.mem_cons.1 hp with hp | hp
      · subst hp; exact ⟨rfl, Nat.le_refl _, by omega⟩
      · obtain ⟨h1, h2, h3⟩ := ih (i + 1) p hp
        exact ⟨h1, by omega, by omega⟩

theorem attemptLoop_probes_length (env : Env) (ttl count : Nat) :
    ∀ r i, (attemptLoop env ttl count i r).probes.length ≤ r := by
  intro r
  induction r with
  | zero => intro i; simp [attemptLoop]
  | succ r ih =>
    intro i
    cases h : env.outcome ttl i <;> simp only [attemptLoop, h] <;>
      simp [List.length_cons] <;> exact ih (i + 1)

theorem hopTtls_append (a b : List Event) : hopTtls (a ++ b) = hopTtls a ++ hopTtls b := by
  simp [hopTtls]

theorem hopTtls_errLine_cons (t : Nat) (s n : String) (es : List Event) :
    hopTtls (.errLine t s n :: es) = hopTtls es := rfl

theorem hopTtls_wait_cons (es : List Event) : hopTtls (.wait :: es) = hopTtls es := rfl

theorem hopTtls_hop_cons (t : Nat) (s n : String) (rtt : Int) (b : Bool) (es : List Event) :
    hopTtls (.hop t s n rtt b :: es) = t :: hopTtls es := rfl

theorem hopTtls_noResponse_cons (t : Nat) (es : List Event) :
    hopTtls (.noResponse t :: es) = t :: hopTtls es := rfl

theorem attemptLoop_hopTtls (env : Env) (ttl count : Nat) :
    ∀ r i, i + r ≤ count →
      (hopTtls (attemptLoop env ttl count i r).events = []
        ∨ hopTtls (attemptLoop env ttl count i r).events = [ttl])
      ∧ ((attemptLoop env ttl count i r).reached = true →
          hopTtls (attemptLoop env ttl count i r).events = [ttl]) := by
  intro r
  induction r with
  | zero => intro i hir; simp [attemptLoop, hopTtls]
  | succ r ih =>
    intro i hir
    cases h : env.outcome ttl i with
    | echoReply src rt =>
      simp [attemptLoop, h, hopTtls, Event.hopTtl]
    | timeExceeded src rt =>
      simp [attemptLoop, h, hopTtls, Event.hopTtl]
    | timeout =>
      by_cases hlast : count ≤ i + 1
      · have hr0 : r = 0 := by omega
        subst hr0
        simp [attemptLoop, h, hlast, hopTtls, Event.hopTtl]
      · obtain ⟨hcase, hreach⟩ := ih (i + 1) (by omega)
        simp only [attemptLoop, h, if_neg hlast, List.nil_append]
        exact ⟨hcase, hreach⟩
    | errorReply src =>
      obtain ⟨hcase, hreach⟩ := ih (i + 1) (by omega)
      simp only [attemptLoop, h, hopTtls_errLine_cons]
      exact ⟨hcase, hreach⟩
    | sendError =>
      obtain ⟨hcase, hreach⟩ := ih (i + 1) (by omega)
      simp only [attemptLoop, h]
      exact ⟨hcase, hreach⟩

theorem attemptLoop_reached_iff (env : Env) (ttl count : Nat) :
    ∀ r i, (attemptLoop env ttl count i r).reached = true ↔
      ∃ p ∈ (attemptLoop env ttl count i r).probes, (env.outcome p.1 p.2).isEcho = true := by
  intro r
  induction r with
  | zero => intro i; simp [attemptLoop]
  | succ r ih =>
    intro i
    cases h : env.outcome ttl i with
    | echoReply src rt =>
      simp [attemptLoop, h, Outcome.isEcho]
    | timeExceeded src rt =>
      simp [attemptLoop, h, Outcome.isEcho]
    | timeout =>
      simp only [attemptLoop, h, List.mem_cons]
      rw [ih (i + 1)]
      constructor
      · rintro ⟨p, hp, he⟩; exact ⟨p, Or.inr hp, he⟩
      · rintro ⟨p, hp | hp, he⟩
        · subst hp; simp [h, Outcome.isEcho] at he
        · exact ⟨p, hp, he⟩
    | errorReply src =>
      simp only [attemptLoop, h, List.mem_cons]
      rw [ih (i + 1)]
      constructor
      · rintro ⟨p, hp, he⟩; exact ⟨p, Or.inr hp, he⟩
      · rintro ⟨p, hp | hp, he⟩
        · subst hp; simp [h, Outcome.isEcho] at he
        · exact ⟨p, hp, he⟩
    | sendError =>
      simp only [attemptLoop, h, List.mem_cons]
      rw [ih (i + 1)]
      constructor
      · rintro ⟨p, hp, he⟩; exact ⟨p, Or.inr hp, he⟩
      · rintro ⟨p, hp | hp, he⟩
        · subst hp; simp [h, Outcome.isEcho] at he
        · exact ⟨p, hp, he⟩

theorem attemptLoop_reached_shape (env : Env) (ttl count : Nat) :
    ∀ r i,
      ((attemptLoop env ttl count i r).reached = true →
        (∃ es e, (attemptLoop env ttl count i r).events = es ++ [e]
          ∧ e.isReached = true ∧ ∀ x ∈ es, x.isReached = false)
        ∧ ∃ ps p, (attemptLoop env ttl count i r).probes = ps ++ [p]
          ∧ (env.outcome p.1 p.2).isEcho = true)
      ∧ ((attemptLoop env ttl count i r).reached = false →
          ∀ x ∈ (attemptLoop env ttl count i r).events, x.isReached = false) := by
  intro r
  induction r with
  | zero => intro i; simp [attemptLoop]
  | succ r ih =>
    intro i
    cases h : env.outcome ttl i with
    | echoReply src rt =>
      refine ⟨fun _ => ⟨?_, ?_⟩, ?_⟩
      · exact ⟨[], .hop ttl src (env.fqdn src) ((rt - env.sendTime ttl i) * 1000) true,
          by simp [attemptLoop, h], rfl, by simp⟩
      · exact ⟨[], (ttl, i), by simp [attemptLoop, h], by simp [h, Outcome.isEcho]⟩
      · intro hfalse; simp [attemptLoop, h] at hfalse
    | timeExceeded src rt =>
      refine ⟨fun htrue => ?_, fun _ => ?_⟩
      · simp [attemptLoop, h] at htrue
      · intro x hx
        simp only [attemptLoop, h] at hx
        rcases List.mem_cons.1 hx with hx | hx
        · subst hx; rfl
        · simp at hx; subst hx; rfl
    | timeout =>
      obtain ⟨ihT, ihF⟩ := ih (i + 1)
      refine ⟨fun htrue => ?_, fun hfalse => ?_⟩
      · simp only [attemptLoop, h] at htrue ⊢
        obtain ⟨⟨es, e, hev, hre, hes⟩, ps, p, hpr, hech⟩ := ihT htrue
        constructor
        · refine ⟨(if count ≤ i + 1 then [.noResponse ttl] else []) ++ es, e, ?_, hre, ?_⟩
          · rw [hev, List.append_assoc]
          · intro x hx
            rcases List.mem_append.1 hx with hx | hx
            · rcases (by split at hx <;> simp_all :
                x = Event.noResponse ttl) with h2
              subst h2; rfl
            · exact hes x hx
        · exact ⟨(ttl, i) :: ps, p, by simp [hpr], hech⟩
      · intro x hx
        simp only [attemptLoop, h] at hfalse hx
        rcases List.mem_append.1 hx with hx | hx
        · rcases (by split at hx <;> simp_all : x = Event.noResponse ttl) with h2
          subst h2; rfl
        · exact ihF hfalse x hx
    | errorReply src =>
      obtain ⟨ihT, ihF⟩ := ih (i + 1)
      refine ⟨fun htrue => ?_, fun hfalse => ?_⟩
      · simp only [attemptLoop, h] at htrue ⊢
        obtain ⟨⟨es, e, hev, hre, hes⟩, ps, p, hpr, hech⟩ := ihT htrue
        constructor
        · refine ⟨.errLine ttl src (env.fqdn src) :: es, e, by simp [hev], hre, ?_⟩
          intro x hx
          rcases List.mem_cons.1 hx with hx | hx
          · subst hx; rfl
          · exact hes x hx
        · exact ⟨(ttl, i) :: ps, p, by simp [hpr], hech⟩
      · intro x hx
        simp only [attemptLoop, h] at hfalse hx
        rcases List.mem_cons.1 hx with hx | hx
        · subst hx; rfl
        · exact ihF hfalse x hx
    | sendError =>
      obtain ⟨ihT, ihF⟩ := ih (i + 1)
      refine ⟨fun htrue => ?_, fun hfalse => ?_⟩
      · simp only [attemptLoop, h] at htrue ⊢
        obtain ⟨⟨es, e, hev, hre, hes⟩, ps, p, hpr, hech⟩ := ihT htrue
        exact ⟨⟨es, e, hev, hre, hes⟩, (ttl, i) :: ps, p, by simp [hpr], hech⟩
      · intro x hx
        simp only [attemptLoop, h] at hfalse hx
        exact ihF hfalse x hx

theorem attemptLoop_noResponse_iff (env : Env) (ttl count : Nat) :
    ∀ r i, i + r = count →
      ((Event.noResponse ttl ∈ (attemptLoop env ttl count i r).events) ↔
        (i < count ∧ env.outcome ttl (count - 1) = .timeout ∧
          ∀ j, i ≤ j → j + 1 < count → (env.outcome ttl j).breaks = false)) := by
  intro r
  induction r with
  | zero =>
    intro i hir
    simp [attemptLoop]
    omega
  | succ r ih =>
    intro i hir
    cases h : env.outcome ttl i with
    | echoReply src rt =>
      simp only [attemptLoop, h, List.mem_singleton]
      constructor
      · intro hx; exact absurd hx (by simp)
      · rintro ⟨h1, h2, h3⟩
        by_cases hi : i + 1 < count
        · have := h3 i (Nat.le_refl i) hi
          rw [h] at this; simp [Outcome.breaks] at this
        · have hieq : i = count - 1 := by omega
          rw [← hieq, h] at h2; exact absurd h2 (by simp)
    | timeExceeded src rt =>
      simp only [attemptLoop, h, List.mem_cons, List.mem_singleton]
      constructor
      · intro hx; exact absurd hx (by simp)
      · rintro ⟨h1, h2, h3⟩
        by_cases hi : i + 1 < count
        · have := h3 i (Nat.le_refl i) hi
          rw [h] at this; simp [Outcome.breaks] at this
        · have hieq : i = count - 1 := by omega
          rw [← hieq, h] at h2; exact absurd h2 (by simp)
    | timeout =>
      by_cases hlast : count ≤ i + 1
      · have hr0 : r = 0 := by omega
        subst hr0
        simp only [attemptLoop, h, if_pos hlast, List.append_nil, List.mem_singleton]
        constructor
        · intro _
          refine ⟨by omega, ?_, ?_⟩
          · rw [show count - 1 = i by omega]; exact h
          · intro j hj1 hj2; omega
        · intro _; trivial
      · simp only [attemptLoop, h, if_neg hlast, List.nil_append]
        rw [ih (i + 1) (by omega)]
        constructor
        · rintro ⟨h1, h2, h3⟩
          refine ⟨by omega, h2, ?_⟩
          intro j hj1 hj2
          rcases Nat.eq_or_lt_of_le hj1 with hj | hj
          · rw [← hj, h]; rfl
          · exact h3 j (by omega) hj2
        · rintro ⟨h1, h2, h3⟩
          exact ⟨by omega, h2, fun j hj1 hj2 => h3 j (by omega) hj2⟩
    | errorReply src =>
      simp only [attemptLoop, h, List.mem_cons]
      have hne : Event.noResponse ttl ≠ Event.errLine ttl src (env.fqdn src) := by simp
      rw [ih (i + 1) (by omega)]
      constructor
      · rintro (hx | ⟨h1, h2, h3⟩)
        · exact absurd hx hne
        · refine ⟨by omega, h2, ?_⟩
          intro j hj1 hj2
          rcases Nat.eq_or_lt_of_le hj1 with hj | hj
          · rw [← hj, h]; rfl
          · exact h3 j (by omega) hj2
      · rintro ⟨h1, h2, h3⟩
        by_cases hi : i + 1 < count
        · exact Or.inr ⟨by omega, h2, fun j hj1 hj2 => h3 j (by omega) hj2⟩
        · have hieq : i = count - 1 := by omega
          rw [← hieq, h] at h2; exact absurd h2 (by simp)
    | sendError =>
      simp only [attemptLoop, h]
      rw [ih (i + 1) (by omega)]
      constructor
      · rintro ⟨h1, h2, h3⟩
        refine ⟨by omega, h2, ?_⟩
        intro j hj1 hj2
        rcases Nat.eq_or_lt_of_le hj1 with hj | hj
        · rw [← hj, h]; rfl
        · exact h3 j (by omega) hj2
      · rintro ⟨h1, h2, h3⟩
        by_cases hi : i + 1 < count
        · exact ⟨by omega, h2, fun j hj1 hj2 => h3 j (by omega) hj2⟩
        · have hieq : i = count - 1 := by omega
          rw [← hieq, h] at h2; exact absurd h2 (by simp)

theorem attemptLoop_all_timeout (env : Env) (ttl count : Nat)
    (hall : ∀ j, j < count → env.outcome ttl j = .timeout) :
    ∀ r i, i + r = count → r ≠ 0 →
      (attemptLoop env ttl count i r).events = [.noResponse ttl]
      ∧ (attemptLoop env ttl count i r).reached = false := by
  intro r
  induction r with
  | zero => intro i _ hr; exact absurd rfl hr
  | succ r ih =>
    intro i hir _
    have h : env.outcome ttl i = .timeout := hall i (by omega)
    by_cases hlast : count ≤ i + 1
    · have hr0 : r = 0 := by omega
      subst hr0
      simp [attemptLoop, h, hlast]
    · obtain ⟨h1, h2⟩ := ih (i + 1) (by omega) (by omega)
      simp only [attemptLoop, h, if_neg hlast, List.nil_append]
      exact ⟨h1, h2⟩

theorem attemptLoop_break_stops (env : Env) (ttl count k : Nat)
    (hbrk : (env.outcome ttl k).breaks = true) :
    ∀ r i, i ≤ k → ∀ p ∈ (attemptLoop env ttl count i r).probes, p.2 ≤ k := by
  intro r
  induction r with
  | zero => intro i _ p hp; simp [attemptLoop] at hp
  | succ r ih =>
    intro i hik p hp
    cases h : env.outcome ttl i with
    | echoReply src rt =>
      simp [attemptLoop, h] at hp; subst hp; exact hik
    | timeExceeded src rt =>
      simp [attemptLoop, h] at hp; subst hp; exact hik
    | timeout =>
      rcases Nat.eq_or_lt_of_le hik with hi | hi
      · rw [← hi, h] at hbrk; simp [Outcome.breaks] at hbrk
      · simp only [attemptLoop, h] at hp
        rcases List.mem_cons.1 hp with hp | hp
        · subst hp; exact hik
        · exact ih (i + 1) (by omega) p hp
    | errorReply src =>
      rcases Nat.eq_or_lt_of_le hik with hi | hi
      · rw [← hi, h] at hbrk; simp [Outcome.breaks] at hbrk
      · simp only [attemptLoop, h] at hp
        rcases List.mem_cons.1 hp with hp | hp
        · subst hp; exact hik
        · exact ih (i + 1) (by omega) p hp
    | sendError =>
      rcases Nat.eq_or_lt_of_le hik with hi | hi
      · rw [← hi, h] at hbrk; simp [Outcome.breaks] at hbrk
      · simp only [attemptLoop, h] at hp
        rcases List.mem_cons.1 hp with hp | hp
        · subst hp; exact hik
        · exact ih (i + 1) (by omega) p hp

theorem attemptLoop_hop_shape (env : Env) (ttl count : Nat) :
    ∀ r i t src name rtt rch,
      Event.hop t src name rtt rch ∈ (attemptLoop env ttl count i r).events →
      t = ttl ∧ name = env.fqdn src ∧
      ∃ j rt, (ttl, j) ∈ (attemptLoop env ttl count i r).probes ∧
        ((env.outcome ttl j = .echoReply src rt ∧ rch = true)
          ∨ (env.outcome ttl j = .timeExceeded src rt ∧ rch = false)) ∧
        rtt = (rt - env.sendTime ttl j) * 1000 := by
  intro r
  induction r with
  | zero => intro i t src name rtt rch hx; simp [attemptLoop] at hx
  | succ r ih =>
    intro i t src name rtt rch hx
    cases h : env.outcome ttl i with
    | echoReply s0 rt0 =>
      simp only [attemptLoop, h, List.mem_singleton] at hx
      obtain ⟨ht, hs, hn, hr, hb⟩ := Event.hop.inj hx
      subst ht; subst hs; subst hn; subst hr; subst hb
      exact ⟨rfl, rfl, i, rt0, by simp [attemptLoop, h], Or.inl ⟨h, rfl⟩, rfl⟩
    | timeExceeded s0 rt0 =>
      simp only [attemptLoop, h, List.mem_cons, List.mem_singleton] at hx
      rcases hx with hx | hx
      · obtain ⟨ht, hs, hn, hr, hb⟩ := Event.hop.inj hx
        subst ht; subst hs; subst hn; subst hr; subst hb
        exact ⟨rfl, rfl, i, rt0, by simp [attemptLoop, h], Or.inr ⟨h, rfl⟩, rfl⟩
      · rcases hx with hx | hx
        · exact absurd hx (by simp)
        · simp at hx
    | timeout =>
      simp only [attemptLoop, h] at hx ⊢
      rcases List.mem_append.1 hx with hx | hx
      · exact absurd hx (by split <;> simp)
      · obtain ⟨ht, hn, j, rt, hj, hcase, hrtt⟩ := ih (i + 1) t src name rtt rch hx
        exact ⟨ht, hn, j, rt, List.mem_cons_of_mem _ hj, hcase, hrtt⟩
    | errorReply s0 =>
      simp only [attemptLoop, h, List.mem_cons] at hx ⊢
      rcases hx with hx | hx
      · exact absurd hx (by simp)
      · obtain ⟨ht, hn, j, rt, hj, hcase, hrtt⟩ := ih (i + 1) t src name rtt rch hx
        exact ⟨ht, hn, j, rt, Or.inr hj, hcase, hrtt⟩
    | sendError =>
      simp only [attemptLoop, h] at hx ⊢
      obtain ⟨ht, hn, j, rt, hj, hcase, hrtt⟩ := ih (i + 1) t src name rtt rch hx
      exact ⟨ht, hn, j, rt, List.mem_cons_of_mem _ hj, hcase, hrtt⟩

/-! ### Structural lemmas about the outer ttl loop -/

theorem ttlLoop_probes_mem (env : Env) (count : Nat) :
    ∀ fuel ttl, ∀ p ∈ (ttlLoop env count ttl fuel).probes,
      ttl ≤ p.1 ∧ p.1 < ttl + fuel ∧ p.2 < count
        ∧ p ∈ (hopRound env count p.1).probes := by
  intro fuel
  induction fuel with
  | zero => intro ttl p hp; simp [ttlLoop] at hp
  | succ fuel ih =>
    intro ttl p hp
    simp only [ttlLoop] at hp
    split at hp
    · obtain ⟨h1, h2, h3⟩ := attemptLoop_probes_mem env ttl count count 0 p hp
      refine ⟨by omega, by omega, by omega, ?_⟩
      rw [h1]; exact hp
    · rcases List.mem_append.1 hp with hp | hp
      · obtain ⟨h1, h2, h3⟩ := attemptLoop_probes_mem env ttl count count 0 p hp
        refine ⟨by omega, by omega, by omega, ?_⟩
        rw [h1]; exact hp
      · obtain ⟨h1, h2, h3, h4⟩ := ih (ttl + 1) p hp
        exact ⟨by omega, by omega, h3, h4⟩

theorem ttlLoop_probes_length (env : Env) (count : Nat) :
    ∀ fuel ttl, (ttlLoop env count ttl fuel).probes.length ≤ fuel * count := by
  intro fuel
  induction fuel with
  | zero => intro ttl; simp [ttlLoop]
  | succ fuel ih =>
    intro ttl
    simp only [ttlLoop]
    split
    · calc (hopRound env count ttl).probes.length ≤ count :=
            attemptLoop_probes_length env ttl count count 0
        _ ≤ (fuel + 1) * count := by nlinarith
    · rw [List.length_append]
      have h1 : (hopRound env count ttl).probes.length ≤ count :=
        attemptLoop_probes_length env ttl count count 0
      have h2 := ih (ttl + 1)
      calc (hopRound env count ttl).probes.length
            + (ttlLoop env count (ttl + 1) fuel).probes.length
          ≤ count + fuel * count := by omega
        _ = (fuel + 1) * count := by ring

theorem ttlLoop_hopTtls (env : Env) (count : Nat) :
    ∀ fuel ttl,
      (∀ t, ttl ≤ t → t < ttl + fuel → hopTtls (hopRound env count t).events ≠ []) →
      ∃ n, n ≤ fuel ∧ hopTtls (ttlLoop env count ttl fuel).events = List.range' ttl n
        ∧ ((ttlLoop env count ttl fuel).reached = false → n = fuel) := by
  intro fuel
  induction fuel with
  | zero =>
    intro ttl _
    exact ⟨0, Nat.le_refl 0, by simp [ttlLoop, hopTtls], fun _ => rfl⟩
  | succ fuel ih =>
    intro ttl H
    have hrd : hopTtls (hopRound env count ttl).events = [ttl] := by
      rcases (attemptLoop_hopTtls env ttl count count 0 (by omega)).1 with h | h
      · exact absurd h (H ttl (Nat.le_refl ttl) (by omega))
      · exact h
    by_cases hreach : (hopRound env count ttl).reached = true
    · refine ⟨1, by omega, ?_, ?_⟩
      · simp only [ttlLoop, if_pos hreach]
        rw [hrd, List.range'_one]
      · intro hfalse
        simp only [ttlLoop, if_pos hreach] at hfalse
        rw [hreach] at hfalse; exact absurd hfalse (by simp)
    · obtain ⟨m, hm, hev, hfu⟩ := ih (ttl + 1) (fun t h1 h2 => H t (by omega) (by omega))
      refine ⟨m + 1, by omega, ?_, ?_⟩
      · simp only [ttlLoop, if_neg hreach]
        rw [hopTtls_append, hrd, hev, List.range'_succ]
        rfl
      · intro hfalse
        simp only [ttlLoop, if_neg hreach] at hfalse
        rw [hfu hfalse]

theorem ttlLoop_reached_iff (env : Env) (count : Nat) :
    ∀ fuel ttl, (ttlLoop env count ttl fuel).reached = true ↔
      ∃ p ∈ (ttlLoop env count ttl fuel).probes, (env.outcome p.1 p.2).isEcho = true := by
  intro fuel
  induction fuel with
  | zero => intro ttl; simp [ttlLoop]
  | succ fuel ih =>
    intro ttl
    simp only [ttlLoop]
    split
    · rename_i hreach
      exact iff_of_true hreach ((attemptLoop_reached_iff env ttl count count 0).1 hreach)
    · rename_i hreach
      rw [ih (ttl + 1)]
      constructor
      · rintro ⟨p, hp, he⟩
        exact ⟨p, List.mem_append.2 (Or.inr hp), he⟩
      · rintro ⟨p, hp, he⟩
        rcases List.mem_append.1 hp with hp | hp
        · exact absurd ((attemptLoop_reached_iff env ttl count count 0).2 ⟨p, hp, he⟩) hreach
        · exact ⟨p, hp, he⟩

theorem ttlLoop_reached_shape (env : Env) (count : Nat) :
    ∀ fuel ttl,
      ((ttlLoop env count ttl fuel).reached = true →
        ∃ es e, (ttlLoop env count ttl fuel).events = es ++ [e]
          ∧ e.isReached = true ∧ ∀ x ∈ es, x.isReached = false)
      ∧ ((ttlLoop env count ttl fuel).reached = false →
          ∀ x ∈ (ttlLoop env count ttl fuel).events, x.isReached = false) := by
  intro fuel
  induction fuel with
  | zero => intro ttl; simp [ttlLoop]
  | succ fuel ih =>
    intro ttl
    simp only [ttlLoop]
    split
    · rename_i hreach
      exact ⟨fun _ => ((attemptLoop_reached_shape env ttl count count 0).1 hreach).1,
        fun hfalse => by rw [hreach] at hfalse; exact absurd hfalse (by simp)⟩
    · rename_i hreach
      have hrdF : (hopRound env count ttl).reached = false := by
        revert hreach; cases (hopRound env count ttl).reached <;> simp
      have hrdEv := (attemptLoop_reached_shape env ttl count count 0).2 hrdF
      obtain ⟨ihT, ihF⟩ := ih (ttl + 1)
      refine ⟨fun htrue => ?_, fun hfalse => ?_⟩
      · obtain ⟨es, e, hev, hre, hes⟩ := ihT htrue
        refine ⟨(hopRound env count ttl).events ++ es, e, by rw [hev, List.append_assoc],
          hre, ?_⟩
        intro x hx
        rcases List.mem_append.1 hx with hx | hx
        · exact hrdEv x hx
        · exact hes x hx
      · intro x hx
        rcases List.mem_append.1 hx with hx | hx
        · exact hrdEv x hx
        · exact ihF hfalse x hx

theorem ttlLoop_hop_shape (env : Env) (count : Nat) :
    ∀ fuel ttl t src name rtt rch,
      Event.hop t src name rtt rch ∈ (ttlLoop env count ttl fuel).events →
      name = env.fqdn src ∧
      ∃ j rt, (t, j) ∈ (ttlLoop env count ttl fuel).probes ∧
        ((env.outcome t j = .echoReply src rt ∧ rch = true)
          ∨ (env.outcome t j = .timeExceeded src rt ∧ rch = false)) ∧
        rtt = (rt - env.sendTime t j) * 1000 := by
  intro fuel
  induction fuel with
  | zero => intro ttl t src name rtt rch hx; simp [ttlLoop] at hx
  | succ fuel ih =>
    intro ttl t src name rtt rch hx
    simp only [ttlLoop] at hx ⊢
    split at hx <;> rename_i hreach
    · obtain ⟨ht, hn, j, rt, hj, hcase, hrtt⟩ :=
        attemptLoop_hop_shape env ttl count count 0 t src name rtt rch hx
      subst ht
      rw [if_pos hreach]
      exact ⟨hn, j, rt, hj, hcase, hrtt⟩
    · rw [if_neg hreach]
      rcases List.mem_append.1 hx with hx | hx
      · obtain ⟨ht, hn, j, rt, hj, hcase, hrtt⟩ :=
          attemptLoop_hop_shape env ttl count count 0 t src name rtt rch hx
        subst ht
        exact ⟨hn, j, rt, List.mem_append.2 (Or.inl hj), hcase, hrtt⟩
      · obtain ⟨hn, j, rt, hj, hcase, hrtt⟩ := ih (ttl + 1) t src name rtt rch hx
        exact ⟨hn, j, rt, List.mem_append.2 (Or.inr hj), hcase, hrtt⟩

/-! ### Placement of the interval sleeps -/

theorem waits_hopTrue_cons (t : Nat) (s n : String) (rtt : Int) (es : List Event) :
    waitsAfterHopOnly (.hop t s n rtt true :: es) = waitsAfterHopOnly es := rfl

theorem waits_hopFalse_wait_cons (t : Nat) (s n : String) (rtt : Int) (es : List Event) :
    waitsAfterHopOnly (.hop t s n rtt false :: .wait :: es) = waitsAfterHopOnly es := rfl

theorem waits_noResponse_cons (t : Nat) (es : List Event) :
    waitsAfterHopOnly (.noResponse t :: es) = waitsAfterHopOnly es := rfl

theorem waits_errLine_cons (t : Nat) (s n : String) (es : List Event) :
    waitsAfterHopOnly (.errLine t s n :: es) = waitsAfterHopOnly es := rfl

theorem attemptLoop_waits (env : Env) (ttl count : Nat) :
    ∀ r i b, waitsAfterHopOnly ((attemptLoop env ttl count i r).events ++ b)
      = waitsAfterHopOnly b := by
  intro r
  induction r with
  | zero => intro i b; rfl
  | succ r ih =>
    intro i b
    cases h : env.outcome ttl i with
    | echoReply src rt =>
      simp only [attemptLoop, h, List.singleton_append, waits_hopTrue_cons]
    | timeExceeded src rt =>
      simp only [attemptLoop, h, List.cons_append, List.singleton_append,
        List.nil_append, waits_hopFalse_wait_cons]
    | timeout =>
      simp only [attemptLoop, h, List.append_assoc]
      split
      · rw [List.singleton_append, waits_noResponse_cons, ih (i + 1)]
      · rw [List.nil_append, ih (i + 1)]
    | errorReply src =>
      simp only [attemptLoop, h, List.cons_append, waits_errLine_cons, ih (i + 1)]
    | sendError =>
      simp only [attemptLoop, h, ih (i + 1)]

theorem ttlLoop_waits (env : Env) (count : Nat) :
    ∀ fuel ttl b, waitsAfterHopOnly ((ttlLoop env count ttl fuel).events ++ b)
      = waitsAfterHopOnly b := by
  intro fuel
  induction fuel with
  | zero => intro ttl b; rfl
  | succ fuel ih =>
    intro ttl b
    simp only [ttlLoop, hopRound]
    split
    · exact attemptLoop_waits env ttl count count 0 b
    · rw [List.append_assoc, attemptLoop_waits env ttl count count 0, ih (ttl + 1)]

/-! ### The run is oblivious to the name-resolution results -/

theorem hopRtts_hop_cons (t : Nat) (s n : String) (rtt : Int) (b : Bool) (es : List Event) :
    hopRtts (.hop t s n rtt b :: es) = rtt :: hopRtts es := rfl

theorem hopRtts_noResponse_cons (t : Nat) (es : List Event) :
    hopRtts (.noResponse t :: es) = hopRtts es := rfl

theorem hopRtts_errLine_cons (t : Nat) (s n : String) (es : List Event) :
    hopRtts (.errLine t s n :: es) = hopRtts es := rfl

theorem hopRtts_wait_cons (es : List Event) : hopRtts (.wait :: es) = hopRtts es := rfl

theorem hopRtts_append (a b : List Event) : hopRtts (a ++ b) = hopRtts a ++ hopRtts b := by
  simp [hopRtts]

theorem attemptLoop_fqdn_oblivious (out : Nat → Nat → Outcome) (st : Nat → Nat → Int)
    (f g : String → String) (ttl count : Nat) :
    ∀ r i,
      (attemptLoop ⟨out, f, st⟩ ttl count i r).probes
        = (attemptLoop ⟨out, g, st⟩ ttl count i r).probes
      ∧ (attemptLoop ⟨out, f, st⟩ ttl count i r).reached
        = (attemptLoop ⟨out, g, st⟩ ttl count i r).reached
      ∧ hopTtls (attemptLoop ⟨out, f, st⟩ ttl count i r).events
        = hopTtls (attemptLoop ⟨out, g, st⟩ ttl count i r).events
      ∧ hopRtts (attemptLoop ⟨out, f, st⟩ ttl count i r).events
        = hopRtts (attemptLoop ⟨out, g, st⟩ ttl count i r).events := by
  intro r
  induction r with
  | zero => intro i; exact ⟨rfl, rfl, rfl, rfl⟩
  | succ r ih =>
    intro i
    obtain ⟨ihp, ihr, iht, ihq⟩ := ih (i + 1)
    cases h : out ttl i with
    | echoReply src rt =>
      simp [attemptLoop, h, hopTtls, hopRtts, Event.hopTtl]
    | timeExceeded src rt =>
      simp [attemptLoop, h, hopTtls, hopRtts, Event.hopTtl]
    | timeout =>
      simp only [attemptLoop, h]
      refine ⟨by rw [ihp], ihr, ?_, ?_⟩
      · rw [hopTtls_append, hopTtls_append, iht]
      · rw [hopRtts_append, hopRtts_append, ihq]
    | errorReply src =>
      simp only [attemptLoop, h]
      refine ⟨by rw [ihp], ihr, ?_, ?_⟩
      · rw [hopTtls_errLine_cons, hopTtls_errLine_cons, iht]
      · rw [hopRtts_errLine_cons, hopRtts_errLine_cons, ihq]
    | sendError =>
      simp only [attemptLoop, h]
      exact ⟨by rw [ihp], ihr, iht, ihq⟩

theorem ttlLoop_fqdn_oblivious (out : Nat → Nat → Outcome) (st : Nat → Nat → Int)
    (f g : String → String) (count : Nat) :
    ∀ fuel ttl,
      (ttlLoop ⟨out, f, st⟩ count ttl fuel).probes
        = (ttlLoop ⟨out, g, st⟩ count ttl fuel).probes
      ∧ (ttlLoop ⟨out, f, st⟩ count ttl fuel).reached
        = (ttlLoop ⟨out, g, st⟩ count ttl fuel).reached
      ∧ hopTtls (ttlLoop ⟨out, f, st⟩ count ttl fuel).events
        = hopTtls (ttlLoop ⟨out, g, st⟩ count ttl fuel).events
      ∧ hopRtts (ttlLoop ⟨out, f, st⟩ count ttl fuel).events
        = hopRtts (ttlLoop ⟨out, g, st⟩ count ttl fuel).events := by
  intro fuel
  induction fuel with
  | zero => intro ttl; exact ⟨rfl, rfl, rfl, rfl⟩
  | succ fuel ih =>
    intro ttl
    obtain ⟨rdp, rdr, rdt, rdq⟩ := attemptLoop_fqdn_oblivious out st f g ttl count count 0
    obtain ⟨ihp, ihr, iht, ihq⟩ := ih (ttl + 1)
    simp only [ttlLoop, hopRound]
    by_cases hreach : (attemptLoop ⟨out, f, st⟩ ttl count 0 count).reached = true
    · have hreach2 : (attemptLoop ⟨out, g, st⟩ ttl count 0 count).reached = true := by
        rw [← rdr]; exact hreach
      rw [if_pos hreach, if_pos hreach2]
      exact ⟨rdp, rdr, rdt, rdq⟩
    · have hreach2 : ¬ (attemptLoop ⟨out, g, st⟩ ttl count 0 count).reached = true := by
        rw [← rdr]; exact hreach
      rw [if_neg hreach, if_neg hreach2]
      refine ⟨by rw [rdp, ihp], ihr, ?_, ?_⟩
      · rw [hopTtls_append, hopTtls_append, rdt, iht]
      · rw [hopRtts_append, hopRtts_append, rdq, ihq]

theorem ttlLoop_probes_last (env : Env) (count : Nat) :
    ∀ fuel ttl, (ttlLoop env count ttl fuel).reached = true →
      ∃ ps p, (ttlLoop env count ttl fuel).probes = ps ++ [p]
        ∧ (env.outcome p.1 p.2).isEcho = true := by
  intro fuel
  induction fuel with
  | zero => intro ttl h; simp [ttlLoop] at h
  | succ fuel ih =>
    intro ttl h
    simp only [ttlLoop] at h ⊢
    split at h <;> rename_i hreach
    · rw [if_pos hreach]
      exact ((attemptLoop_reached_shape env ttl count count 0).1 hreach).2
    · rw [if_neg hreach]
      obtain ⟨ps, p, hps, he⟩ := ih (ttl + 1) h
      exact ⟨(hopRound env count ttl).probes ++ ps, p, by rw [hps, List.append_assoc], he⟩

/-! ### The claims -/

/-- C1, counterexample: with `count = 1`, `max_hops = 1` and the single
attempt at ttl 1 ending in a non-timeout `ICMPLibError` (a Failure outcome),
the run completes without a destination reply yet emits zero HopResults —
not the `max_hops = 1` elements the claim asserts, and the ttl sequence is
empty rather than `[1]`.  A ttl whose attempts all end in non-timeout
failures leaves a gap. -/
theorem c1_gap_counterexample :
    (run envFail 1 1).reached = false
    ∧ hopTtls (run envFail 1 1).events = []
    ∧ (hopTtls (run envFail 1 1).events).length ≠ 1 := by decide

/-- C1, amended: for every run in which each ttl round from 1 to `max_hops`
emits at least one HopResult (equivalently: no ttl has its attempts end with
a swallowed non-timeout Failure on the last attempt and no response), the
emitted HopResult ttl values are exactly `1, 2, …, n` — strictly increasing
from 1 with no gaps — for some `n ≤ max_hops`, and if the run ends without
reaching the destination then `n = max_hops` exactly. -/
theorem c1_hop_ttls_amended (env : Env) (count maxHops : Nat)
    (H : ∀ t, 1 ≤ t → t ≤ maxHops → hopTtls (hopRound env count t).events ≠ []) :
    ∃ n, n ≤ maxHops ∧ hopTtls (run env count maxHops).events = List.range' 1 n
      ∧ ((run env count maxHops).reached = false → n = maxHops) :=
  ttlLoop_hopTtls env count maxHops 1 (fun t h1 h2 => H t h1 (by omega))

/-- C1, witness: the all-timeout environment with `count = 1`,
`max_hops = 2` satisfies the emission hypothesis, and the amended theorem
applies to it. -/
theorem c1_hop_ttls_amended_witness :
    ∃ n, n ≤ 2 ∧ hopTtls (run envTO 1 2).events = List.range' 1 n
      ∧ ((run envTO 1 2).reached = false → n = 2) :=
  c1_hop_ttls_amended envTO 1 2 (by intro t h1 h2; interval_cases t <;> decide)

/-- C2: the run's `host_reached` flag is set iff some probe that was actually
sent got an echo reply from the destination; when it is set, the output ends
with the unique event having `reached_destination = true` (everything before
it is non-reached), the last probe sent is the one the destination answered
(the run stops right there), and when it is not set no emitted event has
`reached_destination = true`. -/
theorem c2_reached_unique_last (env : Env) (count maxHops : Nat) :
    ((run env count maxHops).reached = true ↔
      ∃ p ∈ (run env count maxHops).probes, (env.outcome p.1 p.2).isEcho = true)
    ∧ ((run env count maxHops).reached = true →
        ∃ es e, (run env count maxHops).events = es ++ [e]
          ∧ e.isReached = true ∧ ∀ x ∈ es, x.isReached = false)
    ∧ ((run env count maxHops).reached = true →
        ∃ ps p, (run env count maxHops).probes = ps ++ [p]
          ∧ (env.outcome p.1 p.2).isEcho = true)
    ∧ ((run env count maxHops).reached = false →
        ∀ x ∈ (run env count maxHops).events, x.isReached = false) :=
  ⟨ttlLoop_reached_iff env count maxHops 1,
   (ttlLoop_reached_shape env count maxHops 1).1,
   ttlLoop_probes_last env count maxHops 1,
   (ttlLoop_reached_shape env count maxHops 1).2⟩

/-- C2, witness: the theorem applied to a concrete run in which the
destination answers the first probe. -/
theorem c2_reached_unique_last_witness :
    ((run envEcho 1 1).reached = true ↔
      ∃ p ∈ (run envEcho 1 1).probes, (envEcho.outcome p.1 p.2).isEcho = true)
    ∧ ((run envEcho 1 1).reached = true →
        ∃ es e, (run envEcho 1 1).events = es ++ [e]
          ∧ e.isReached = true ∧ ∀ x ∈ es, x.isReached = false)
    ∧ ((run envEcho 1 1).reached = true →
        ∃ ps p, (run envEcho 1 1).probes = ps ++ [p]
          ∧ (envEcho.outcome p.1 p.2).isEcho = true)
    ∧ ((run envEcho 1 1).reached = false →
        ∀ x ∈ (run envEcho 1 1).events, x.isReached = false) :=
  c2_reached_unique_last envEcho 1 1

/-- C3: the synthetic no-response HopResult for a ttl is emitted exactly when
`count` is positive, the last attempt (`sequence = count - 1`) times out and
no earlier attempt produced a response (i.e. none of the earlier attempts is
a breaking Reply/HopReply — earlier timeouts and failures merely continue the
loop); and a ttl where all `count` attempts time out emits exactly one
HopResult, the no-response line with address and round-trip time absent. -/
theorem c3_timeout_emission (env : Env) (t count : Nat) :
    ((Event.noResponse t ∈ (hopRound env count t).events) ↔
      (0 < count ∧ env.outcome t (count - 1) = .timeout ∧
        ∀ i, i + 1 < count → (env.outcome t i).breaks = false))
    ∧ (0 < count → (∀ i, i < count → env.outcome t i = .timeout) →
        (hopRound env count t).events = [.noResponse t]) := by
  constructor
  · rw [show hopRound env count t = attemptLoop env t count 0 count from rfl,
      attemptLoop_noResponse_iff env t count count 0 (by omega)]
    constructor
    · rintro ⟨h1, h2, h3⟩; exact ⟨h1, h2, fun i hi => h3 i (Nat.zero_le i) hi⟩
    · rintro ⟨h1, h2, h3⟩; exact ⟨h1, h2, fun j _ hj => h3 j hj⟩
  · intro hc hall
    exact (attemptLoop_all_timeout env t count hall count 0 (by omega) (by omega)).1

/-- C3, witness: with two attempts that both time out at ttl 1, the round
emits exactly the no-response line. -/
theorem c3_timeout_emission_witness :
    (Event.noResponse 1 ∈ (hopRound envTO 2 1).events)
    ∧ (hopRound envTO 2 1).events = [.noResponse 1] :=
  ⟨(c3_timeout_emission envTO 1 2).1.2 ⟨by decide, rfl, fun i _ => rfl⟩,
   (c3_timeout_emission envTO 1 2).2 (by decide) (fun i _ => rfl)⟩

/-- C4: if the attempt with sequence `k < count - 1` at ttl `t` yields a
response (gateway HopReply or destination Reply — a breaking outcome), then
no probe with a larger sequence number is constructed or sent at that ttl in
the whole run: the attempt loop short-circuits on the first response. -/
theorem c4_short_circuit (env : Env) (count maxHops t k j : Nat)
    (hk : k + 1 < count) (hbrk : (env.outcome t k).breaks = true) (hj : k < j) :
    (t, j) ∉ (run env count maxHops).probes := by
  intro hmem
  obtain ⟨h1, h2, h3, h4⟩ := ttlLoop_probes_mem env count maxHops 1 (t, j) hmem
  have h5 := attemptLoop_break_stops env t count k hbrk count 0 (Nat.zero_le k) (t, j) h4
  omega

/-- C4, witness: a gateway answers attempt 0 of ttl 1 with Time Exceeded and
`count = 2`, so the probe `(1, 1)` is never sent. -/
theorem c4_short_circuit_witness : (1, 1) ∉ (run envHop 2 3).probes :=
  c4_short_circuit envHop 2 3 1 0 1 (by decide) (by decide) (by decide)

/-- C5, counterexample: the code computes
`round_trip_time = (reply.time - request.time) * 1000` with no clamping, so
when the wall clock steps backwards between send and receive the emitted
round-trip time is negative: in `envNeg` the reply timestamp is 0 while the
send timestamp is 1, and the run emits a HopResult with rtt −1000, refuting
"this value is always ≥ 0". -/
theorem c5_negative_rtt_counterexample :
    hopRtts (run envNeg 1 1).events = [-1000]
    ∧ ¬ (∀ r ∈ hopRtts (run envNeg 1 1).events, 0 ≤ r) := by decide

/-- C5, amended: every emitted hop line's round-trip time equals
`(receive_time − send_time) * 1000` computed from the timestamps of the exact
attempt (probe/reply pair) that produced it — and it is ≥ 0 provided the
reply's receive timestamp is not earlier than that probe's send timestamp
(which the code does not enforce). -/
theorem c5_rtt_formula_amended (env : Env) (count maxHops t : Nat)
    (src name : String) (rtt : Int) (rch : Bool)
    (h : Event.hop t src name rtt rch ∈ (run env count maxHops).events) :
    ∃ j rt, (t, j) ∈ (run env count maxHops).probes
      ∧ ((env.outcome t j = .echoReply src rt ∧ rch = true)
          ∨ (env.outcome t j = .timeExceeded src rt ∧ rch = false))
      ∧ rtt = (rt - env.sendTime t j) * 1000
      ∧ (env.sendTime t j ≤ rt → 0 ≤ rtt) := by
  obtain ⟨hn, j, rt, hj, hcase, hrtt⟩ :=
    ttlLoop_hop_shape env count maxHops 1 t src name rtt rch h
  refine ⟨j, rt, hj, hcase, hrtt, fun hle => ?_⟩
  rw [hrtt]
  have hnn : (0 : Int) ≤ rt - env.sendTime t j := by omega
  exact mul_nonneg hnn (by norm_num)

/-- C5, witness: the amended theorem applied to the hop line emitted by a
gateway reply with send time 1 and receive time 3. -/
theorem c5_rtt_formula_amended_witness :
    ∃ j rt, (1, j) ∈ (run envHop 1 1).probes
      ∧ ((envHop.outcome 1 j = .echoReply "192.168.0.254" rt ∧ false = true)
          ∨ (envHop.outcome 1 j = .timeExceeded "192.168.0.254" rt ∧ false = false))
      ∧ (2000 : Int) = (rt - envHop.sendTime 1 j) * 1000
      ∧ (envHop.sendTime 1 j ≤ rt → 0 ≤ (2000 : Int)) :=
  c5_rtt_formula_amended envHop 1 1 1 "192.168.0.254" "192.168.0.254" 2000 false (by decide)

/-- C6, counterexample: when `sock.receive` returns a reply whose
`raise_for_status()` raises a non-timeout `ICMPLibError`, the code has
already printed the partial hop line (ttl, address, resolved name) at source
lines 81-82 before the exception is swallowed at lines 115-117 — so partial
output *is* produced for that attempt, refuting "no partial output is
produced".  Here attempt 0 of ttl 1 gets such an error reply from 10.0.0.1
and the run's output starts with that dangling partial line. -/
theorem c6_partial_output_counterexample :
    (run envErr 2 1).events = [.errLine 1 "10.0.0.1" "10.0.0.1", .noResponse 1]
    ∧ ¬ (∀ e ∈ (run envErr 2 1).events, e.isErrLine = false) := by decide

/-- C6, amended: a non-timeout Failure emits no HopResult for that attempt
and the attempt loop continues with the next attempt at the same ttl; but
when the failure is an ICMP error reply (detected by `raise_for_status` after
a reply was received) the partial line with ttl, address and resolved name
has already been printed for that attempt, while a failure raised before a
reply is printed (send/receive error) produces no output at all. -/
theorem c6_failure_amended (env : Env) (t count i r : Nat) :
    (∀ src, env.outcome t i = .errorReply src →
      (attemptLoop env t count i (r + 1)).events
        = .errLine t src (env.fqdn src) :: (attemptLoop env t count (i + 1) r).events
      ∧ hopTtls (attemptLoop env t count i (r + 1)).events
        = hopTtls (attemptLoop env t count (i + 1) r).events
      ∧ (attemptLoop env t count i (r + 1)).reached
        = (attemptLoop env t count (i + 1) r).reached)
    ∧ (env.outcome t i = .sendError →
      (attemptLoop env t count i (r + 1)).events = (attemptLoop env t count (i + 1) r).events
      ∧ (attemptLoop env t count i (r + 1)).reached
        = (attemptLoop env t count (i + 1) r).reached) := by
  constructor
  · intro src h
    refine ⟨by simp [attemptLoop, h], ?_, by simp [attemptLoop, h]⟩
    simp only [attemptLoop, h]
    rw [hopTtls_errLine_cons]
  · intro h
    exact ⟨by simp [attemptLoop, h], by simp [attemptLoop, h]⟩

/-- C6, witness: the amended theorem applied to the error-reply attempt
`(ttl 1, sequence 0)` of `envErr` with `count = 2`. -/
theorem c6_failure_amended_witness :
    (attemptLoop envErr 1 2 0 2).events
      = .errLine 1 "10.0.0.1" "10.0.0.1" :: (attemptLoop envErr 1 2 1 1).events
    ∧ hopTtls (attemptLoop envErr 1 2 0 2).events = hopTtls (attemptLoop envErr 1 2 1 1).events
    ∧ (attemptLoop envErr 1 2 0 2).reached = (attemptLoop envErr 1 2 1 1).reached :=
  (c6_failure_amended envErr 1 2 0 1).1 "10.0.0.1" (by decide)

/-- C7, counterexample: the code calls `sleep(interval)` only in the
`TimeExceeded` branch (source lines 106-107); after a fully unresponsive ttl
(the `* * *` branch, lines 109-113) it moves straight to the next ttl.  With
`count = 1`, `max_hops = 2` and every probe timing out, ttl 1 is finalized
unresponsive and ttl 2 is probed, yet no interval wait ever occurs —
refuting "the interval wait is performed after … a fully unresponsive
ttl". -/
theorem c7_interval_counterexample :
    (run envTO 1 2).events = [.noResponse 1, .noResponse 2]
    ∧ Event.wait ∉ (run envTO 1 2).events := by decide

/-- C7, amended: in every run the interval wait occurs exactly immediately
after each completed intermediate-hop (Time Exceeded) line — so it is never
performed between retry attempts within a ttl, never after the synthetic
no-response line of a fully unresponsive ttl, and never after the
destination-reached line (the run ends there). -/
theorem c7_wait_only_after_hop_reply (env : Env) (count maxHops : Nat) :
    waitsAfterHopOnly (run env count maxHops).events = true := by
  have h := ttlLoop_waits env count maxHops 1 []
  rw [List.append_nil] at h
  exact h

/-- C8: the resolved name of a replying address is obtained by a single
best-effort call of the external resolver (`socket.getfqdn`, modelled from
the spec): every emitted hop line's name field is exactly the resolver's
answer for its source address; when the reverse lookup fails or yields
nothing the spec-level optional `resolved_name` is absent and `getfqdn`
falls back to the address itself (which is what the code then displays,
exactly as in the spec's own sample output); and the run is never aborted by
the lookup result — the probes sent, the termination flag, the HopResult
ttls and the round-trip times are identical whatever the resolver returns. -/
theorem c8_resolver_best_effort (lookup : String → Option String) (addr : String)
    (hfail : lookup addr = none) (out : Nat → Nat → Outcome) (st : Nat → Nat → Int)
    (g : String → String) (count maxHops : Nat) :
    getfqdnModel lookup addr = addr
    ∧ resolvedNameSpec lookup addr = none
    ∧ (∀ t src name rtt rch,
        Event.hop t src name rtt rch
            ∈ (run ⟨out, getfqdnModel lookup, st⟩ count maxHops).events →
          name = getfqdnModel lookup src)
    ∧ (run ⟨out, getfqdnModel lookup, st⟩ count maxHops).probes
        = (run ⟨out, g, st⟩ count maxHops).probes
    ∧ (run ⟨out, getfqdnModel lookup, st⟩ count maxHops).reached
        = (run ⟨out, g, st⟩ count maxHops).reached
    ∧ hopTtls (run ⟨out, getfqdnModel lookup, st⟩ count maxHops).events
        = hopTtls (run ⟨out, g, st⟩ count maxHops).events
    ∧ hopRtts (run ⟨out, getfqdnModel lookup, st⟩ count maxHops).events
        = hopRtts (run ⟨out, g, st⟩ count maxHops).events := by
  obtain ⟨hp, hr, ht, hq⟩ :=
    ttlLoop_fqdn_oblivious out st (getfqdnModel lookup) g count maxHops 1
  refine ⟨by simp [getfqdnModel, hfail], hfail, ?_, hp, hr, ht, hq⟩
  intro t src name rtt rch hmem
  exact (ttlLoop_hop_shape ⟨out, getfqdnModel lookup, st⟩ count maxHops 1
    t src name rtt rch hmem).1

/-- C8, witness: a resolver whose lookup always fails leaves the displayed
name equal to the address and the spec-level resolved name absent. -/
theorem c8_resolver_best_effort_witness :
    getfqdnModel (fun _ => none) "10.0.0.1" = "10.0.0.1"
    ∧ resolvedNameSpec (fun _ => none) "10.0.0.1" = none :=
  ⟨(c8_resolver_best_effort (fun _ => none) "10.0.0.1" rfl
      (fun _ _ => Outcome.timeExceeded "10.0.0.1" 3) (fun _ _ => 1) (fun s => s) 1 1).1,
   (c8_resolver_best_effort (fun _ => none) "10.0.0.1" rfl
      (fun _ _ => Outcome.timeExceeded "10.0.0.1" 3) (fun _ _ => 1) (fun s => s) 1 1).2.1⟩

/-- C9, counterexample: a run that completes normally (max_hops exhausted, no
destination reply) whose channel trace contains the acquisition but no
release — the source constructs the socket at lines 53-56 and never closes it
on any path, refuting "released (closed) on every exit path of the run". -/
theorem c9_no_release_counterexample :
    (verbose_traceroute envTO 1 1).2.reached = false
    ∧ (verbose_traceroute envTO 1 1).1 = [ChanEvent.acquire]
    ∧ ChanEvent.release ∉ (verbose_traceroute envTO 1 1).1 := by decide

/-- C9, amended: the Probe Channel (socket) is acquired exactly once at run
start, before any probing, and is never explicitly released by the function
on any exit path — the channel trace of every run is the single acquisition,
with cleanup left to interpreter shutdown / garbage collection. -/
theorem c9_channel_never_released (env : Env) (count maxHops : Nat) :
    (verbose_traceroute env count maxHops).1 = [ChanEvent.acquire]
    ∧ ChanEvent.release ∉ (verbose_traceroute env count maxHops).1 :=
  ⟨rfl, by simp [verbose_traceroute]⟩

/-- C10: for positive `count` and `max_hops` the run terminates having sent
at most `max_hops * count` probes, and every probe sent has a ttl in
`1 .. max_hops` and a sequence number below `count` — the ttl counter starts
at 1, increases by one per outer iteration for at most `max_hops` iterations,
and each iteration makes at most `count` attempts. -/
theorem c10_probe_bound (env : Env) (count maxHops : Nat)
    (hc : 0 < count) (hm : 0 < maxHops) :
    (run env count maxHops).probes.length ≤ maxHops * count
    ∧ ∀ p ∈ (run env count maxHops).probes,
        1 ≤ p.1 ∧ p.1 ≤ maxHops ∧ p.2 < count := by
  constructor
  · exact ttlLoop_probes_length env count maxHops 1
  · intro p hp
    obtain ⟨h1, h2, h3, _⟩ := ttlLoop_probes_mem env count maxHops 1 p hp
    exact ⟨h1, by omega, h3⟩

/-- C10, witness: the bound theorem applied to the all-timeout environment
with `count = 2`, `max_hops = 3`. -/
theorem c10_probe_bound_witness :
    (0 < 2 ∧ 0 < 3)
    ∧ (run envTO 2 3).probes.length ≤ 3 * 2
    ∧ ∀ p ∈ (run envTO 2 3).probes, 1 ≤ p.1 ∧ p.1 ≤ 3 ∧ p.2 < 2 :=
  ⟨⟨by decide, by decide⟩, c10_probe_bound envTO 2 3 (by decide) (by decide)⟩

end Traceroute
